import Mathlib

/-!
Verification of `src/update_automation.py`.

Python strings are modelled as lists of characters (`Str`); the filesystem
is modelled as an explicit state (`FS`); external collaborators (the git
subprocess, per-path I/O failures, the clock) are modelled as an explicit
environment (`Env`).  Fallible code returns `Option`/`Except`; a Python
exception that the source does not catch is modelled as `Except.error`.
-/

set_option maxHeartbeats 1000000

abbrev Str := List Char

/-- Whitespace characters stripped by Python `str.strip()` (ASCII range). -/
def isPySpace (c : Char) : Bool :=
  c = ' ' || c = '\t' || c = '\n' || c = '\r' || c = Char.ofNat 11 || c = Char.ofNat 12

/-- Python `str.strip()` (no argument): remove leading and trailing whitespace. -/
def pyStrip (s : Str) : Str :=
  ((s.dropWhile isPySpace).reverse.dropWhile isPySpace).reverse

/-- Python `str.split` on the newline separator: keeps empty pieces and returns
one (empty) piece for the empty string. -/
def splitOnNl : Str → List Str
  | [] => [[]]
  | c :: cs =>
    match splitOnNl cs with
    | [] => [[]]
    | l :: ls => if c = '\n' then [] :: l :: ls else (c :: l) :: ls

/-- Python `'\n'.join`. -/
def intercalateNl : List Str → Str
  | [] => []
  | [l] => l
  | l :: ls => l ++ '\n' :: intercalateNl ls

/-- The metadata test of `extract_changed_lines` (`src/update_automation.py`
lines 99-101): file-header, index, old-file, new-file and hunk-range lines. -/
def isMetaLine (l : Str) : Bool :=
  ("diff --git".data).isPrefixOf l || ("index ".data).isPrefixOf l ||
  ("--- ".data).isPrefixOf l || ("+++ ".data).isPrefixOf l || ("@@".data).isPrefixOf l

/-- The added-line test of `extract_changed_lines` (line 105): starts with `+`
but not with `+++`. -/
def isAddedLine (l : Str) : Bool :=
  ("+".data).isPrefixOf l && !(("+++".data).isPrefixOf l)

/-- Characters removed by `result.lstrip('\n ;')` (line 113). -/
def isStripChar (c : Char) : Bool := c = '\n' || c = ' ' || c = ';'

/-- Characters of `isStripChar` other than the newline; used to describe the
effect of the `lstrip` on the first surviving line. -/
def isSpSemi (c : Char) : Bool := c = ' ' || c = ';'

/-- Embedding of `extract_changed_lines` (`src/update_automation.py` lines
86-115): keep the added lines of a unified diff, strip the `+` marker, join
with newlines, left-strip newlines/spaces/semicolons, and return `none` when
nothing (or only whitespace) remains. -/
def extract_changed_lines (diff_content : Str) : Option Str :=
  if pyStrip diff_content = [] then none
  else
    let lines := splitOnNl diff_content
    let changed_lines := lines.filterMap fun line =>
      if isMetaLine line then none
      else if isAddedLine line then some (line.drop 1) else none
    let result := intercalateNl changed_lines
    let result := result.dropWhile isStripChar
    if pyStrip result = [] then none else some result

/-- Reasoning helper (not from the source): the effect of
`lstrip('\n ;')` on a newline-joined list of newline-free lines, described
line by line: leading lines made of spaces/semicolons disappear, the first
surviving line loses its leading spaces/semicolons, later lines are kept. -/
def stripLeadLines : List Str → List Str
  | [] => []
  | x :: rest =>
    if x.dropWhile isSpSemi = [] then stripLeadLines rest
    else x.dropWhile isSpSemi :: rest

/-- Statement of claim C1 at one diff text, exactly as the claim words it:
no returned line starts with a metadata marker, and every returned line is
an input added line with the one-character marker stripped. -/
def claimOneAt (diff : Str) : Prop :=
  ∀ out, extract_changed_lines diff = some out →
    ∀ l ∈ splitOnNl out,
      isMetaLine l = false ∧
      ∃ L ∈ splitOnNl diff, isAddedLine L = true ∧ l = L.drop 1

/-- Python `str.rstrip` with a single-character argument. -/
def rstripChar (c : Char) (l : Str) : Str :=
  (l.reverse.dropWhile (fun d => d == c)).reverse

/-- Embedding of `os.path.dirname` (POSIX semantics, as used at line 147):
everything before the last slash, with trailing slashes stripped unless the
prefix consists of slashes only. -/
def dirname (p : Str) : Str :=
  let head := (p.reverse.dropWhile (fun c => c != '/')).reverse
  if head.any (fun c => c != '/') then rstripChar '/' head else head

/-- The character substitution of `path_to_folder_name` (line 148): both
separator characters become an underscore.  The source applies two
sequential `str.replace` calls; since the first one introduces no
backslash, a single character map is equivalent. -/
def sepToUnderscore (c : Char) : Char :=
  if c = '/' then '_' else if c = '\\' then '_' else c

/-- Embedding of `path_to_folder_name` (lines 145-149). -/
def path_to_folder_name (file_path : Str) : Str :=
  (dirname file_path).map sepToUnderscore

/-- ASCII case folding of Python `str.lower` (the paths handled here are
ASCII; full Unicode folding is not modelled). -/
def pyLower (c : Char) : Char :=
  if 'A' ≤ c ∧ c ≤ 'Z' then Char.ofNat (c.toNat + 32) else c

/-- Embedding of `is_sql_file` (lines 151-153). -/
def is_sql_file (file_path : Str) : Bool :=
  (".sql".data).isSuffixOf (file_path.map pyLower)

/-- Embedding of `os.path.basename` (POSIX semantics): everything after the
last slash. -/
def basename (p : Str) : Str :=
  (p.reverse.takeWhile (fun c => c != '/')).reverse

/-- Embedding of `os.path.join` (POSIX semantics, two arguments). -/
def pjoin (a b : Str) : Str :=
  if b.head? = some '/' then b
  else if a = [] ∨ a.getLast? = some '/' then a ++ b
  else a ++ '/' :: b

/-- Statement of claim C3 at one pair of paths, exactly as the claim words
it: equal directory portions give equal destination subfolder names, and
different directory portions give different names. -/
def claimThreeAt (p q : Str) : Prop :=
  (dirname p = dirname q → path_to_folder_name p = path_to_folder_name q) ∧
  (dirname p ≠ dirname q → path_to_folder_name p ≠ path_to_folder_name q)

/-- Decimal rendering, fuel-bounded so that it is structurally recursive;
the fuel `n + 1` in `natToDec` always suffices. -/
def natToDecAux : Nat → Nat → Str
  | 0, _ => []
  | fuel + 1, n =>
    if n < 10 then [Char.ofNat (48 + n)]
    else natToDecAux fuel (n / 10) ++ [Char.ofNat (48 + n % 10)]

/-- Decimal rendering of a natural number, as Python `str(int)` produces
inside the f-strings at lines 192 and 272. -/
def natToDec (n : Nat) : Str := natToDecAux (n + 1) n

/-- Decoder for `natToDec`, used to prove it injective. -/
def decValue (s : Str) : Nat :=
  s.foldl (fun a c => a * 10 + (c.toNat - 48)) 0

/-- The versioned candidate name probed by `create_update_folder`
(line 192): `f"{full_path}-v{counter}"`. -/
def vCand (base : Str) (k : Nat) : Str :=
  base ++ '-' :: 'v' :: natToDec k

/-- The while loop of lines 189-193 and 269-273: starting at `counter`,
return the first candidate that is not an existing path.  The loop runs
until a free name is found; `fuel` bounds the recursion and is chosen
large enough (`ex.length + 1`) that it is never exhausted. -/
def probeLoop (ex : List Str) (cand : Nat → Str) : Nat → Nat → Str
  | 0, k => cand k
  | fuel + 1, k => if cand k ∈ ex then probeLoop ex cand fuel (k + 1) else cand k

/-- Embedding of the duplicate-handling loop of `create_update_folder`
(lines 188-193) against the set `ex` of existing paths: return `full_path`
itself when it does not exist, else probe `full_path-v2`, `-v3`, ... -/
def unique_folder_path (ex : List Str) (full_path : Str) : Str :=
  if full_path ∈ ex then probeLoop ex (vCand full_path) (ex.length + 1) 2
  else full_path

/-- The initial zip path of `zip_update_folder` (line 266):
`os.path.join(parent_dir, f"{base_name}.zip")`. -/
def zipBasePath (parent base : Str) : Str :=
  pjoin parent (base ++ (".zip".data))

/-- The versioned zip candidate of line 272:
`os.path.join(parent_dir, f"{base_name}-v{counter}.zip")` — the version
suffix is inserted before the `.zip` extension. -/
def zipCand (parent base : Str) (k : Nat) : Str :=
  pjoin parent (base ++ '-' :: 'v' :: (natToDec k ++ (".zip".data)))

/-- Embedding of the duplicate-handling loop of `zip_update_folder`
(lines 268-273). -/
def unique_zip_path (ex : List Str) (parent base : Str) : Str :=
  if zipBasePath parent base ∈ ex then probeLoop ex (zipCand parent base) (ex.length + 1) 2
  else zipBasePath parent base

/-- Filesystem state: an association list from paths to file contents
(earlier entries shadow later ones, so prepending models overwriting), plus
the list of directories. -/
structure FS where
  files : List (Str × Str)
  dirs : List Str
deriving DecidableEq

/-- Content of the file at `p`, if any. -/
def FS.content (fs : FS) (p : Str) : Option Str :=
  (fs.files.find? (fun e => e.1 == p)).map (fun e => e.2)

/-- `os.path.exists`: true for files and for directories. -/
def FS.pathExists (fs : FS) (p : Str) : Bool :=
  (fs.content p).isSome || fs.dirs.contains p

/-- `open(p, 'w')` followed by writes: create or overwrite the file at `p`. -/
def FS.write (fs : FS) (p c : Str) : FS :=
  { fs with files := (p, c) :: fs.files }

/-- `os.makedirs(d, exist_ok=True)` in the assembler loop: record the
directory (its parent, the package root, was created before the loop, so no
other directory comes into being). -/
def FS.mkdir (fs : FS) (d : Str) : FS :=
  { fs with dirs := d :: fs.dirs }

/-- Environment of a run: the unified-diff text the git collaborator
produces per path (`none` models a `CalledProcessError`; the commit pair of
the run only selects which diff the collaborator produces, so it is folded
into this function), which per-path operations fail with a caught
`OSError`/`IOError`, and the timestamp `datetime.now()` renders. -/
structure Env where
  diffOf : Str → Option Str
  mkdirFails : Str → Bool
  writeFails : Str → Bool
  copyFails : Str → Bool
  now : Str

/-- Embedding of `get_sql_changes` (lines 61-84): ask git for the diff of
one file; a subprocess failure yields `None`, otherwise the diff text is
reduced by `extract_changed_lines`. -/
def get_sql_changes (env : Env) (file_path : Str) : Option Str :=
  match env.diffOf file_path with
  | none => none
  | some d => extract_changed_lines d

/-- The header comment written by `save_sql_changes` (lines 126-133). -/
def sqlHeader (env : Env) (file_path : Str) : Str :=
  ("--\n-- SQL CHANGES: ".data) ++ file_path ++
  ("\n-- This file contains only the changed content for this SQL file\n-- Generated on: ".data) ++
  env.now ++
  ("\n-- ⚠ IMPORTANT: Review these changes before applying to production\n-- \n\n".data)

/-- Embedding of `save_sql_changes` (lines 117-142): refuse empty content,
then write header plus content; `false` on a caught `IOError`. -/
def save_sql_changes (env : Env) (file_path changed_content dest_file_path : Str)
    (fs : FS) : FS × Bool :=
  if pyStrip changed_content = [] then (fs, false)
  else if env.writeFails dest_file_path then (fs, false)
  else (fs.write dest_file_path (sqlHeader env file_path ++ changed_content), true)

/-- One iteration of the loop of `copy_files_to_update` (lines 212-252):
the new filesystem, and whether the iteration counted as a success (`false`
means it incremented the skip counter instead — each branch of the source
increments exactly one of the two counters). -/
def copyOne (env : Env) (update_folder : Str) (fs : FS) (file_path : Str) : FS × Bool :=
  if !fs.pathExists file_path then (fs, false)
  else
    let folder_name := path_to_folder_name file_path
    let dest_folder := pjoin update_folder folder_name
    if env.mkdirFails dest_folder then (fs, false)
    else
      let fs1 := fs.mkdir dest_folder
      let file_name := basename file_path
      let dest_file_path := pjoin dest_folder file_name
      if is_sql_file file_path then
        match get_sql_changes env file_path with
        | some changed_content =>
          save_sql_changes env file_path changed_content dest_file_path fs1
        | none => (fs1, false)
      else
        match fs1.content file_path with
        | some c =>
          if env.copyFails dest_file_path then (fs1, false)
          else (fs1.write dest_file_path c, true)
        | none => (fs1, false)

/-- The whole loop of `copy_files_to_update` (lines 205-253) with both
counters kept explicit: `(success_count, skip_count, final filesystem)`. -/
def copyLoop (env : Env) (update_folder : Str) : List Str → FS → Nat × Nat × FS
  | [], fs => (0, 0, fs)
  | f :: rest, fs =>
    let r := copyOne env update_folder fs f
    let t := copyLoop env update_folder rest r.1
    if r.2 then (t.1 + 1, t.2.1, t.2.2) else (t.1, t.2.1 + 1, t.2.2)

/-- Embedding of `copy_files_to_update` (lines 205-255): the source returns
only `success_count` (line 255); the final filesystem is the run's effect. -/
def copy_files_to_update (env : Env) (files : List Str) (update_folder : Str)
    (fs : FS) : Nat × FS :=
  ((copyLoop env update_folder files fs).1, (copyLoop env update_folder files fs).2.2)

/-- Statement of claim C9, as the claim words it: both aggregate counts —
success and skip — are communicated to the caller, i.e. the skip count is
recoverable from what `copy_files_to_update` returns. -/
def claimNine : Prop :=
  ∀ env root files1 files2 fs1 fs2,
    copy_files_to_update env files1 root fs1 = copy_files_to_update env files2 root fs2 →
    (copyLoop env root files1 fs1).2.1 = (copyLoop env root files2 fs2).2.1

/-- An environment in which no I/O operation fails and git produces no
diff; used for concrete runs. -/
def env0 : Env :=
  { diffOf := fun _ => none, mkdirFails := fun _ => false,
    writeFails := fun _ => false, copyFails := fun _ => false, now := [] }

/-- Concrete filesystem for the claim C8 counterexample: the change set will
name both `a_b/g` and the package-internal path `/u/a_b/g`. -/
def fsC8 : FS :=
  { files := [(("a_b/g".data), ("new".data)), (("/u/a_b/g".data), ("old".data))],
    dirs := [] }

/-- Concrete filesystem for the claim C8 witness. -/
def fsW : FS := { files := [(("a/f".data), ("X".data))], dirs := [] }

/-- Outcome of a `subprocess.run(['git', ...])` call: normal stdout, a
`CalledProcessError` (non-zero exit: not a repository, invalid commit
identifiers), or a `FileNotFoundError` (the git tool is unavailable). -/
inductive GitOutcome where
  | ok (stdout : Str)
  | callFailed
  | toolMissing
deriving DecidableEq

/-- `result.stdout.strip().splitlines()` with empty entries filtered out, as
at line 47 (`[f for f in ... if f]`). -/
def parseNameOnly (out : Str) : List Str :=
  (splitOnNl (pyStrip out)).filter (fun l => !l.isEmpty)

/-- Embedding of `get_files_between_commits` (lines 39-58): the commit
arguments only select the subprocess invocation, so the call's outcome is
the parameter.  `except subprocess.CalledProcessError` (line 55) prints a
warning and returns the empty list; a `FileNotFoundError` is NOT caught by
this function (unlike `get_staged_files`, line 35) and escapes as
`Except.error ()`, aborting the process. -/
def get_files_between_commits (res : GitOutcome) : Except Unit (List Str) :=
  match res with
  | GitOutcome.ok out => Except.ok (parseNameOnly out)
  | GitOutcome.callFailed => Except.ok []
  | GitOutcome.toolMissing => Except.error ()

/-- Python `line.split('=', 1)[1]` for a line that contains an equals sign:
everything after the first one. -/
def afterEq : Str → Str
  | [] => []
  | c :: cs => if c = '=' then cs else afterEq cs

/-- The quote characters removed by `.strip('\x27\x22')` at line 172. -/
def isQuote (c : Char) : Bool := c = Char.ofNat 39 || c = Char.ofNat 34

/-- Python `str.strip` with the two quote characters as argument. -/
def stripQuotes (s : Str) : Str :=
  ((s.dropWhile isQuote).reverse.dropWhile isQuote).reverse

/-- The `for line in f` loop of `create_update_folder` (lines 169-176):
the first stripped line starting with `update_path` decides the override
(`some path`), or keeps the default (`none`) when its value is empty; all
other lines are skipped.  `Except.error ()` models the uncaught
`IndexError` raised by `line.split('=', 1)[1]` when the matching line has
no `=` separator — only `IOError` is caught at line 177. -/
def confLoop : List Str → Except Unit (Option Str)
  | [] => Except.ok none
  | l :: ls =>
    let line := pyStrip l
    if ("update_path".data).isPrefixOf line then
      if '=' ∈ line then
        let path_str := stripQuotes (pyStrip (afterEq line))
        Except.ok (if path_str = [] then none else some path_str)
      else Except.error ()
    else confLoop ls

/-- `os.path.abspath` restricted to what the claims need: an absolute path
stays itself, a relative one is joined to the working directory (the
`normpath` dot-segment collapsing is not modelled; no claim depends on it). -/
def abspath (cwd p : Str) : Str :=
  if p.head? = some '/' then p else pjoin cwd p

/-- The update-root resolution of `create_update_folder` (lines 162-178).
`conf` is the observable state of `update.conf`: `none` = the file does not
exist; `some none` = it exists but reading raises an `IOError`, which is
caught with a warning and the default kept; `some (some lines)` = its
stripped-readable lines.  `Except.error ()` is the uncaught `IndexError`
escaping `create_update_folder` and aborting the run. -/
def resolveUpdateRoot (cwd default_root : Str) (conf : Option (Option (List Str))) :
    Except Unit Str :=
  let dflt := pjoin cwd default_root
  match conf with
  | none => Except.ok dflt
  | some none => Except.ok dflt
  | some (some ls) =>
    match confLoop ls with
    | Except.error e => Except.error e
    | Except.ok none => Except.ok dflt
    | Except.ok (some p) => Except.ok (abspath cwd p)

/-- The exit behaviour of the `__main__` block (lines 362-383): `0` on
success paths, `1` on failure paths.  `mkFolderFails` is whether
`os.makedirs` at line 196 raises, in which case `create_update_folder`
terminates the process with status 1 (line 200); the optional zip step
(lines 373-380) does not change the exit status. -/
def mainExitCode (env : Env) (files : List Str) (root : Str) (fs : FS)
    (mkFolderFails : Bool) : Nat :=
  if files.isEmpty then 0
  else if mkFolderFails then 1
  else if 0 < (copy_files_to_update env files root fs).1 then 0 else 1

/-- Environment for the claim C4 witness: git reports a diff consisting of
one removed line and one context line for every path. -/
def envC4 : Env :=
  { diffOf := fun _ => some ("-old\n ctx".data), mkdirFails := fun _ => false,
    writeFails := fun _ => false, copyFails := fun _ => false, now := [] }

/-- Filesystem for the claim C4 witness: the SQL file exists. -/
def fsC4 : FS := { files := [(("db/x.sql".data), ("S".data))], dirs := [] }

theorem splitOnNl_ne_nil (s : Str) : splitOnNl s ≠ [] := by
  cases s with
  | nil => simp [splitOnNl]
  | cons c cs =>
    simp only [splitOnNl]
    cases splitOnNl cs with
    | nil => simp
    | cons l ls =>
      by_cases h : c = '\n' <;> simp [h]

theorem mem_splitOnNl_nlfree (s : Str) : ∀ l ∈ splitOnNl s, ∀ c ∈ l, c ≠ '\n' := by
  induction s with
  | nil => intro l hl; simp [splitOnNl] at hl; simp [hl]
  | cons c cs ih =>
    intro l hl
    simp only [splitOnNl] at hl
    rcases hsp : splitOnNl cs with _ | ⟨a, b⟩
    · exact absurd hsp (splitOnNl_ne_nil cs)
    · rw [hsp] at hl
      by_cases hc : c = '\n'
      · simp only [hc, if_pos rfl] at hl
        rcases List.mem_cons.mp hl with h | h
        · simp [h]
        · exact ih l (by rw [hsp]; exact h)
      · simp only [if_neg hc] at hl
        rcases List.mem_cons.mp hl with h | h
        · subst h
          intro x hx
          rcases List.mem_cons.mp hx with h | h
          · subst h; exact hc
          · exact ih a (by rw [hsp]; exact List.mem_cons_self _ _) x h
        · exact ih l (by rw [hsp]; exact List.mem_cons_of_mem _ h)

theorem splitOnNl_cons_nl (s : Str) : splitOnNl ('\n' :: s) = [] :: splitOnNl s := by
  simp only [splitOnNl]
  rcases hsp : splitOnNl s with _ | ⟨a, b⟩
  · exact absurd hsp (splitOnNl_ne_nil s)
  · simp

theorem splitOnNl_append (x y : Str) (hx : ∀ c ∈ x, c ≠ '\n') :
    splitOnNl (x ++ y) = (x ++ (splitOnNl y).headD []) :: (splitOnNl y).tail := by
  induction x with
  | nil =>
    rcases hsp : splitOnNl y with _ | ⟨a, b⟩
    · exact absurd hsp (splitOnNl_ne_nil y)
    · simp [hsp]
  | cons c x ih =>
    have hc : c ≠ '\n' := hx c (List.mem_cons_self _ _)
    have ih' := ih (fun d hd => hx d (List.mem_cons_of_mem _ hd))
    have hstep : splitOnNl ((c :: x) ++ y) =
        match splitOnNl (x ++ y) with
        | [] => [[]]
        | l :: ls => if c = '\n' then [] :: l :: ls else (c :: l) :: ls := rfl
    rw [hstep, ih']
    simp [hc]

theorem splitOnNl_intercalate (ms : List Str) (hne : ms ≠ [])
    (hfree : ∀ l ∈ ms, ∀ c ∈ l, c ≠ '\n') :
    splitOnNl (intercalateNl ms) = ms := by
  induction ms with
  | nil => exact absurd rfl hne
  | cons m rest ih =>
    cases rest with
    | nil =>
      have hm := hfree m (List.mem_cons_self _ _)
      have := splitOnNl_append m [] hm
      simpa [intercalateNl, splitOnNl] using this
    | cons m2 rest2 =>
      have hm := hfree m (List.mem_cons_self _ _)
      have hrec := ih (by simp) (fun l hl => hfree l (List.mem_cons_of_mem _ hl))
      show splitOnNl (m ++ '\n' :: intercalateNl (m2 :: rest2)) = _
      rw [splitOnNl_append m _ hm, splitOnNl_cons_nl, hrec]
      simp

theorem dropWhile_append_of_nil {p : Char → Bool} {x : Str} (y : Str)
    (h : x.dropWhile p = []) : (x ++ y).dropWhile p = y.dropWhile p := by
  rw [List.dropWhile_append, h]
  simp

theorem dropWhile_append_of_ne {p : Char → Bool} {x : Str} (y : Str)
    (h : x.dropWhile p ≠ []) : (x ++ y).dropWhile p = x.dropWhile p ++ y := by
  rw [List.dropWhile_append, if_neg (by simpa using h)]

theorem stripChar_of_ne_nl (c : Char) (hc : c ≠ '\n') : isStripChar c = isSpSemi c := by
  simp [isStripChar, isSpSemi, hc]

theorem dropWhile_strip_eq_spsemi (x : Str) (hx : ∀ c ∈ x, c ≠ '\n') :
    x.dropWhile isStripChar = x.dropWhile isSpSemi := by
  induction x with
  | nil => rfl
  | cons c x ih =>
    have hc : c ≠ '\n' := hx c (List.mem_cons_self _ _)
    have ih' := ih (fun d hd => hx d (List.mem_cons_of_mem _ hd))
    rw [List.dropWhile_cons, List.dropWhile_cons, stripChar_of_ne_nl c hc, ih']

theorem stripLeadLines_cons_nil {x : Str} (rest : List Str)
    (h : x.dropWhile isSpSemi = []) : stripLeadLines (x :: rest) = stripLeadLines rest := by
  simp only [stripLeadLines, if_pos h]

theorem stripLeadLines_cons_ne {x : Str} (rest : List Str)
    (h : x.dropWhile isSpSemi ≠ []) :
    stripLeadLines (x :: rest) = x.dropWhile isSpSemi :: rest := by
  simp only [stripLeadLines, if_neg h]

theorem dropWhile_intercalate (ms : List Str) (hfree : ∀ l ∈ ms, ∀ c ∈ l, c ≠ '\n') :
    (intercalateNl ms).dropWhile isStripChar = intercalateNl (stripLeadLines ms) := by
  induction ms with
  | nil => rfl
  | cons x rest ih =>
    have hx := hfree x (List.mem_cons_self _ _)
    have ih' := ih (fun l hl => hfree l (List.mem_cons_of_mem _ hl))
    by_cases hd : x.dropWhile isSpSemi = []
    · have hd' : x.dropWhile isStripChar = [] := by rw [dropWhile_strip_eq_spsemi x hx, hd]
      cases rest with
      | nil =>
        show x.dropWhile isStripChar = intercalateNl (stripLeadLines [x])
        rw [hd', stripLeadLines_cons_nil _ hd]
        rfl
      | cons m2 rest2 =>
        show (x ++ '\n' :: intercalateNl (m2 :: rest2)).dropWhile isStripChar = _
        rw [dropWhile_append_of_nil _ hd', List.dropWhile_cons,
          if_pos (by decide : isStripChar '\n' = true), ih',
          stripLeadLines_cons_nil _ hd]
    · have hd' : x.dropWhile isStripChar ≠ [] := by
        rw [dropWhile_strip_eq_spsemi x hx]; exact hd
      cases rest with
      | nil =>
        show x.dropWhile isStripChar = intercalateNl (stripLeadLines [x])
        rw [dropWhile_strip_eq_spsemi x hx, stripLeadLines_cons_ne _ hd]
        rfl
      | cons m2 rest2 =>
        show (x ++ '\n' :: intercalateNl (m2 :: rest2)).dropWhile isStripChar = _
        rw [dropWhile_append_of_ne _ hd', dropWhile_strip_eq_spsemi x hx,
          stripLeadLines_cons_ne _ hd]
        rfl

theorem mem_stripLeadLines (ms : List Str) :
    ∀ l ∈ stripLeadLines ms, ∃ x ∈ ms, l = x ∨ l = x.dropWhile isSpSemi := by
  induction ms with
  | nil => intro l hl; simp [stripLeadLines] at hl
  | cons x rest ih =>
    intro l hl
    simp only [stripLeadLines] at hl
    by_cases hd : x.dropWhile isSpSemi = []
    · rw [if_pos hd] at hl
      obtain ⟨y, hy, hly⟩ := ih l hl
      exact ⟨y, List.mem_cons_of_mem _ hy, hly⟩
    · rw [if_neg hd] at hl
      rcases List.mem_cons.mp hl with h | h
      · exact ⟨x, List.mem_cons_self _ _, Or.inr h⟩
      · exact ⟨l, List.mem_cons_of_mem _ h, Or.inl rfl⟩

theorem mem_stripLeadLines_nlfree (ms : List Str)
    (hfree : ∀ l ∈ ms, ∀ c ∈ l, c ≠ '\n') :
    ∀ l ∈ stripLeadLines ms, ∀ c ∈ l, c ≠ '\n' := by
  intro l hl c hc
  obtain ⟨x, hx, hlx⟩ := mem_stripLeadLines ms l hl
  rcases hlx with rfl | rfl
  · exact hfree l hx c hc
  · exact hfree x hx c ((List.dropWhile_suffix isSpSemi).subset hc)

theorem mem_changed_lines (diff : Str) (l : Str)
    (hl : l ∈ (splitOnNl diff).filterMap fun line =>
      if isMetaLine line then none
      else if isAddedLine line then some (line.drop 1) else none) :
    ∃ L ∈ splitOnNl diff, isMetaLine L = false ∧ isAddedLine L = true ∧ l = L.drop 1 := by
  rcases List.mem_filterMap.mp hl with ⟨L, hL, hEq⟩
  by_cases hm : isMetaLine L = true
  · rw [if_pos hm] at hEq; cases hEq
  · rw [if_neg hm] at hEq
    by_cases ha : isAddedLine L = true
    · rw [if_pos ha] at hEq
      exact ⟨L, hL, Bool.eq_false_iff.mpr hm, ha, (Option.some_inj.mp hEq).symm⟩
    · rw [if_neg ha] at hEq; cases hEq

/-- Claim C1 (amended): every line of the text returned by
`extract_changed_lines` comes from an input line that begins with the
single `+` added marker (and not `+++`) and is not a metadata line, with
that marker stripped; because of the final `lstrip('\n ;')`, the line is
either exactly the stripped added line or that line with its leading
spaces and semicolons removed (the latter can only happen to the first
returned line). -/
theorem extract_changed_lines_sound (diff out : Str)
    (h : extract_changed_lines diff = some out) :
    ∀ l ∈ splitOnNl out, ∃ L ∈ splitOnNl diff,
      isMetaLine L = false ∧ isAddedLine L = true ∧
      (l = L.drop 1 ∨ l = (L.drop 1).dropWhile isSpSemi) := by
  intro l hl
  unfold extract_changed_lines at h
  by_cases h0 : pyStrip diff = []
  · rw [if_pos h0] at h; cases h
  · rw [if_neg h0] at h
    simp only at h
    set changed := (splitOnNl diff).filterMap fun line =>
      if isMetaLine line then none
      else if isAddedLine line then some (line.drop 1) else none with hch
    by_cases h1 : pyStrip ((intercalateNl changed).dropWhile isStripChar) = []
    · rw [if_pos h1] at h; cases h
    · rw [if_neg h1] at h
      have hout : out = (intercalateNl changed).dropWhile isStripChar :=
        (Option.some_inj.mp h).symm
      have hfree : ∀ x ∈ changed, ∀ c ∈ x, c ≠ '\n' := by
        intro x hx c hc
        obtain ⟨L, hL, _, _, rfl⟩ := mem_changed_lines diff x hx
        exact mem_splitOnNl_nlfree diff L hL c (List.drop_subset 1 L hc)
      have hbridge : out = intercalateNl (stripLeadLines changed) := by
        rw [hout, dropWhile_intercalate changed hfree]
      have hsne : stripLeadLines changed ≠ [] := by
        intro hnil
        apply h1
        rw [dropWhile_intercalate changed hfree, hnil]
        rfl
      have hsfree := mem_stripLeadLines_nlfree changed hfree
      have hsplit : splitOnNl out = stripLeadLines changed := by
        rw [hbridge]
        exact splitOnNl_intercalate _ hsne hsfree
      rw [hsplit] at hl
      obtain ⟨x, hx, hlx⟩ := mem_stripLeadLines changed l hl
      obtain ⟨L, hL, hm, ha, hxL⟩ := mem_changed_lines diff x hx
      refine ⟨L, hL, hm, ha, ?_⟩
      rcases hlx with rfl | rfl
      · exact Or.inl hxL
      · exact Or.inr (by rw [hxL])

/-- Witness for the amended claim C1 at the concrete diff `+a`. -/
theorem extract_changed_lines_sound_witness :
    ∃ L ∈ splitOnNl ("+a".data), isMetaLine L = false ∧ isAddedLine L = true ∧
      (("a".data : Str) = L.drop 1 ∨ ("a".data : Str) = (L.drop 1).dropWhile isSpSemi) :=
  extract_changed_lines_sound ("+a".data) ("a".data) (by decide) ("a".data) (by decide)

/-- Counterexample to claim C1 as stated: on the diff text
`+;--- a` + newline + `+diff --git b`, the returned text is
`--- a` + newline + `diff --git b`; its first line starts with the old-file
marker `--- ` (because the leading semicolon of the added line was removed
by the `lstrip`) and equals no input added line with the marker stripped,
and its second line starts with the file-header marker `diff --git`. -/
theorem claimOne_cex : ¬ claimOneAt ("+;--- a\n+diff --git b".data) := by
  intro h
  have h2 := h ("--- a\ndiff --git b".data) (by decide) ("--- a".data) (by decide)
  exact absurd h2.1 (by decide)

theorem sepToUnderscore_inj (a b : Char) (ha1 : a ≠ '_') (ha2 : a ≠ '\\')
    (hb1 : b ≠ '_') (hb2 : b ≠ '\\')
    (h : sepToUnderscore a = sepToUnderscore b) : a = b := by
  unfold sepToUnderscore at h
  split_ifs at h <;> simp_all
  exact absurd h.symm hb1

theorem map_sepToUnderscore_inj :
    ∀ l1 l2 : Str, (∀ c ∈ l1, c ≠ '_' ∧ c ≠ '\\') → (∀ c ∈ l2, c ≠ '_' ∧ c ≠ '\\') →
      l1.map sepToUnderscore = l2.map sepToUnderscore → l1 = l2 := by
  intro l1
  induction l1 with
  | nil =>
    intro l2 _ _ h
    cases l2 with
    | nil => rfl
    | cons b l2 => simp at h
  | cons a l1 ih =>
    intro l2 h1 h2 h
    cases l2 with
    | nil => simp at h
    | cons b l2 =>
      simp only [List.map_cons, List.cons.injEq] at h
      have ha := h1 a (List.mem_cons_self _ _)
      have hb := h2 b (List.mem_cons_self _ _)
      have hab := sepToUnderscore_inj a b ha.1 ha.2 hb.1 hb.2 h.1
      have htl := ih l2 (fun c hc => h1 c (List.mem_cons_of_mem _ hc))
        (fun c hc => h2 c (List.mem_cons_of_mem _ hc)) h.2
      rw [hab, htl]

/-- Claim C3 (amended): two files with the same directory portion always map
to the same destination subfolder name; two files with different directory
portions map to different names provided neither directory portion contains
an underscore or a backslash (the separator-to-underscore flattening is not
injective in general: `a/b` and `a_b` collide). -/
theorem path_to_folder_name_spec (p q : Str) :
    (dirname p = dirname q → path_to_folder_name p = path_to_folder_name q) ∧
    ((∀ c ∈ dirname p, c ≠ '_' ∧ c ≠ '\\') → (∀ c ∈ dirname q, c ≠ '_' ∧ c ≠ '\\') →
      dirname p ≠ dirname q → path_to_folder_name p ≠ path_to_folder_name q) := by
  constructor
  · intro h
    unfold path_to_folder_name
    rw [h]
  · intro hp hq hne heq
    exact hne (map_sepToUnderscore_inj _ _ hp hq heq)

/-- Witness for the amended claim C3: `a/f` and `b/f` come from different
directories free of underscores and backslashes, and indeed get different
destination subfolder names. -/
theorem path_to_folder_name_spec_witness :
    path_to_folder_name ("a/f".data) ≠ path_to_folder_name ("b/f".data) :=
  (path_to_folder_name_spec ("a/f".data) ("b/f".data)).2
    (by decide) (by decide) (by decide)

/-- Counterexample to claim C3 as stated: `a/b/f` and `a_b/f` come from
different directories (`a/b` vs `a_b`) yet map to the same destination
subfolder name `a_b`. -/
theorem claimThree_cex : ¬ claimThreeAt ("a/b/f".data) ("a_b/f".data) := by
  intro h
  exact h.2 (by decide) (by decide)

theorem digitChar_toNat (d : Nat) (h : d < 10) : (Char.ofNat (48 + d)).toNat = 48 + d := by
  interval_cases d <;> decide

theorem decValue_append_digit (s : Str) (c : Char) :
    decValue (s ++ [c]) = decValue s * 10 + (c.toNat - 48) := by
  unfold decValue
  rw [List.foldl_append]
  rfl

theorem decValue_natToDecAux : ∀ fuel n, n < fuel → decValue (natToDecAux fuel n) = n := by
  intro fuel
  induction fuel with
  | zero => intro n h; omega
  | succ fuel ih =>
    intro n h
    by_cases h10 : n < 10
    · simp only [natToDecAux, if_pos h10]
      unfold decValue
      simp [List.foldl, digitChar_toNat n h10]
    · simp only [natToDecAux, if_neg h10]
      rw [decValue_append_digit, ih (n / 10) (by omega),
        digitChar_toNat (n % 10) (by omega)]
      omega

theorem natToDec_inj (a b : Nat) (h : natToDec a = natToDec b) : a = b := by
  have ha := decValue_natToDecAux (a + 1) a (by omega)
  have hb := decValue_natToDecAux (b + 1) b (by omega)
  unfold natToDec at h
  rw [← ha, ← hb, h]

theorem vCand_inj (base : Str) (i j : Nat) (h : vCand base i = vCand base j) : i = j := by
  unfold vCand at h
  have h1 := List.append_cancel_left h
  simp only [List.cons.injEq, true_and] at h1
  exact natToDec_inj i j h1

theorem pjoin_as_append (a b : Str) :
    pjoin a b =
      (if b.head? = some '/' then []
       else if a = [] ∨ a.getLast? = some '/' then a else a ++ ['/']) ++ b := by
  unfold pjoin
  split_ifs <;> simp

theorem head?_append_cons (base : Str) (c : Char) (r1 r2 : Str) :
    (base ++ c :: r1).head? = (base ++ c :: r2).head? := by
  cases base <;> simp

theorem zipCand_inj (parent base : Str) (i j : Nat)
    (h : zipCand parent base i = zipCand parent base j) : i = j := by
  unfold zipCand at h
  rw [pjoin_as_append, pjoin_as_append,
    head?_append_cons base '-' ('v' :: (natToDec i ++ (".zip".data)))
      ('v' :: (natToDec j ++ (".zip".data)))] at h
  have h1 := List.append_cancel_left h
  have h2 := List.append_cancel_left h1
  simp only [List.cons.injEq, true_and] at h2
  exact natToDec_inj i j (List.append_cancel_right h2)

theorem probeLoop_correct (ex : List Str) (cand : Nat → Str) :
    ∀ fuel k, (∃ j, k ≤ j ∧ j < k + fuel ∧ cand j ∉ ex) →
      ∃ j, k ≤ j ∧ cand j ∉ ex ∧ (∀ i, k ≤ i → i < j → cand i ∈ ex) ∧
        probeLoop ex cand fuel k = cand j := by
  intro fuel
  induction fuel with
  | zero =>
    intro k ⟨j, h1, h2, _⟩
    omega
  | succ fuel ih =>
    intro k hex
    by_cases hmem : cand k ∈ ex
    · obtain ⟨j, h1, h2, h3⟩ := hex
      have hjk : j ≠ k := by
        intro hjk
        rw [hjk] at h3
        exact h3 hmem
      obtain ⟨j', g1, g2, g3, g4⟩ := ih (k + 1) ⟨j, by omega, by omega, h3⟩
      refine ⟨j', by omega, g2, ?_, ?_⟩
      · intro i hi1 hi2
        by_cases hik : i = k
        · rw [hik]; exact hmem
        · exact g3 i (by omega) hi2
      · simp only [probeLoop, if_pos hmem]
        exact g4
    · exact ⟨k, Nat.le_refl k, hmem, fun i h1 h2 => by omega,
        by simp only [probeLoop, if_neg hmem]⟩

theorem exists_free_cand (ex : List Str) (cand : Nat → Str)
    (hinj : ∀ i j, cand i = cand j → i = j) (k : Nat) :
    ∃ j, k ≤ j ∧ j < k + (ex.length + 1) ∧ cand j ∉ ex := by
  by_contra hcon
  push_neg at hcon
  have hsub : ((List.range' k (ex.length + 1)).map cand) ⊆ ex := by
    intro p hp
    rcases List.mem_map.mp hp with ⟨j, hj, rfl⟩
    rcases List.mem_range'_1.mp hj with ⟨h1, h2⟩
    exact hcon j h1 (by omega)
  have hnd : ((List.range' k (ex.length + 1)).map cand).Nodup :=
    (List.nodup_range' k (ex.length + 1)).map (fun a b h => hinj a b h)
  have hfsub : ((List.range' k (ex.length + 1)).map cand).toFinset ⊆ ex.toFinset := by
    intro x hx
    rw [List.mem_toFinset] at hx ⊢
    exact hsub hx
  have hcard := Finset.card_le_card hfsub
  rw [List.toFinset_card_of_nodup hnd] at hcard
  have hlast := List.toFinset_card_le ex
  simp only [List.length_map, List.length_range'] at hcard
  omega

theorem probe_if_spec (ex : List Str) (first : Str) (cand : Nat → Str)
    (hinj : ∀ i j, cand i = cand j → i = j) :
    (first ∉ ex → (if first ∈ ex then probeLoop ex cand (ex.length + 1) 2 else first) = first) ∧
    (first ∈ ex → ∃ j, 2 ≤ j ∧
      (if first ∈ ex then probeLoop ex cand (ex.length + 1) 2 else first) = cand j ∧
      cand j ∉ ex ∧ ∀ i, 2 ≤ i → i < j → cand i ∈ ex) ∧
    (if first ∈ ex then probeLoop ex cand (ex.length + 1) 2 else first) ∉ ex := by
  by_cases hf : first ∈ ex
  · rw [if_pos hf]
    obtain ⟨j, g1, g2, g3, g4⟩ :=
      probeLoop_correct ex cand (ex.length + 1) 2 (exists_free_cand ex cand hinj 2)
    refine ⟨fun hn => absurd hf hn, fun _ => ⟨j, g1, g4, g2, g3⟩, ?_⟩
    rw [g4]
    exact g2
  · rw [if_neg hf]
    exact ⟨fun _ => rfl, fun hm => absurd hm hf, hf⟩

/-- Claim C2: the uniqueness probe returns the base path itself when it is
not an existing path; otherwise it returns the first unused candidate among
`base-v2`, `base-v3`, ... in increasing order; in both cases the chosen
package folder path and the chosen archive path are not existing paths
(nothing is overwritten), and for the archive the `-vN` suffix sits before
the `.zip` extension (see `zipCand`). -/
theorem unique_path_correct (ex : List Str) (base parent zbase : Str) :
    (base ∉ ex → unique_folder_path ex base = base) ∧
    (base ∈ ex → ∃ j, 2 ≤ j ∧ unique_folder_path ex base = vCand base j ∧
      vCand base j ∉ ex ∧ ∀ i, 2 ≤ i → i < j → vCand base i ∈ ex) ∧
    unique_folder_path ex base ∉ ex ∧
    (zipBasePath parent zbase ∉ ex →
      unique_zip_path ex parent zbase = zipBasePath parent zbase) ∧
    (zipBasePath parent zbase ∈ ex → ∃ j, 2 ≤ j ∧
      unique_zip_path ex parent zbase = zipCand parent zbase j ∧
      zipCand parent zbase j ∉ ex ∧ ∀ i, 2 ≤ i → i < j → zipCand parent zbase i ∈ ex) ∧
    unique_zip_path ex parent zbase ∉ ex := by
  have hf := probe_if_spec ex base (vCand base) (vCand_inj base)
  have hz := probe_if_spec ex (zipBasePath parent zbase) (zipCand parent zbase)
    (zipCand_inj parent zbase)
  exact ⟨hf.1, hf.2.1, hf.2.2, hz.1, hz.2.1, hz.2.2⟩

/-- Witness for claim C2: with `u/upd` existing, the folder probe must
leave the existing path alone, and with `u/upd.zip` existing, the zip probe
likewise picks a versioned candidate. -/
theorem unique_path_correct_witness :
    (∃ j, 2 ≤ j ∧
      unique_folder_path [("u/upd".data)] ("u/upd".data) = vCand ("u/upd".data) j ∧
      vCand ("u/upd".data) j ∉ [("u/upd".data)] ∧
      ∀ i, 2 ≤ i → i < j → vCand ("u/upd".data) i ∈ [("u/upd".data)]) ∧
    (∃ j, 2 ≤ j ∧
      unique_zip_path [("u/upd.zip".data)] ("u".data) ("upd".data) =
        zipCand ("u".data) ("upd".data) j ∧
      zipCand ("u".data) ("upd".data) j ∉ [("u/upd.zip".data)] ∧
      ∀ i, 2 ≤ i → i < j → zipCand ("u".data) ("upd".data) i ∈ [("u/upd.zip".data)]) := by
  constructor
  · exact (unique_path_correct [("u/upd".data)] ("u/upd".data)
      ("u".data) ("upd".data)).2.1 (by decide)
  · exact (unique_path_correct [("u/upd.zip".data)] ("u/upd".data)
      ("u".data) ("upd".data)).2.2.2.2.1 (by decide)

theorem copyLoop_success_add_skip (env : Env) (root : Str) :
    ∀ files fs, (copyLoop env root files fs).1 + (copyLoop env root files fs).2.1 =
      files.length := by
  intro files
  induction files with
  | nil => intro fs; rfl
  | cons f rest ih =>
    intro fs
    have h := ih (copyOne env root fs f).1
    cases hr : (copyOne env root fs f).2 with
    | true => simp [copyLoop, hr]; omega
    | false => simp [copyLoop, hr]; omega

/-- Claim C10: after the assembler loop, every input path has incremented
exactly one of the two counters, so the success count plus the skip count
equals the number of input paths. -/
theorem copy_counts_partition (env : Env) (root : Str) (files : List Str) (fs : FS) :
    (copyLoop env root files fs).1 + (copyLoop env root files fs).2.1 = files.length :=
  copyLoop_success_add_skip env root files fs

/-- Claim C9 (amended): `copy_files_to_update` returns the success count
(together with its filesystem effect); the skip count is only printed at
line 254, not returned. -/
theorem copy_files_returns_success_only (env : Env) (files : List Str) (root : Str)
    (fs : FS) :
    (copy_files_to_update env files root fs).1 = (copyLoop env root files fs).1 ∧
    (copy_files_to_update env files root fs).1 +
      (copyLoop env root files fs).2.1 = files.length :=
  ⟨rfl, copyLoop_success_add_skip env root files fs⟩

/-- Counterexample to claim C9 as stated: an empty run and a run that skips
one missing file return the very same value to the caller although their
skip counts differ, so the skip count is not among what is returned. -/
theorem claimNine_cex : ¬ claimNine := by
  intro h
  have heq : copy_files_to_update env0 [("x".data)] ("u".data) { files := [], dirs := [] } =
      copy_files_to_update env0 [] ("u".data) { files := [], dirs := [] } := by decide
  have := h env0 ("u".data) [("x".data)] [] { files := [], dirs := [] }
    { files := [], dirs := [] } heq
  exact absurd this (by decide)

theorem extract_none_of_no_added (d : Str)
    (h : ∀ l ∈ splitOnNl d, isAddedLine l = false) :
    extract_changed_lines d = none := by
  unfold extract_changed_lines
  have hch : ((splitOnNl d).filterMap fun line =>
      if isMetaLine line then none
      else if isAddedLine line then some (line.drop 1) else none) = [] := by
    apply List.filterMap_eq_nil_iff.mpr
    intro line hline
    by_cases hm : isMetaLine line = true
    · simp [hm]
    · simp [hm, h line hline]
  by_cases h0 : pyStrip d = []
  · rw [if_pos h0]
  · rw [if_neg h0]
    simp only [hch]
    rfl

theorem get_sql_changes_none (env : Env) (f : Str)
    (hdiff : ∀ d, env.diffOf f = some d → ∀ l ∈ splitOnNl d, isAddedLine l = false) :
    get_sql_changes env f = none := by
  unfold get_sql_changes
  cases hd : env.diffOf f with
  | none => rfl
  | some d => exact extract_none_of_no_added d (hdiff d hd)

/-- Claim C4: a `.sql` file whose diff contains no added line is skipped by
the assembler: the iteration writes no file (the file table is unchanged,
zero bytes written), counts as no success, and in the surrounding loop it
contributes one to the skip count and nothing to the success count. -/
theorem sql_without_added_lines_skipped (env : Env) (root : Str) (fs : FS) (f : Str)
    (rest : List Str) (hsql : is_sql_file f = true)
    (hdiff : ∀ d, env.diffOf f = some d → ∀ l ∈ splitOnNl d, isAddedLine l = false) :
    (copyOne env root fs f).1.files = fs.files ∧
    (copyOne env root fs f).2 = false ∧
    (copyLoop env root (f :: rest) fs).1 =
      (copyLoop env root rest (copyOne env root fs f).1).1 ∧
    (copyLoop env root (f :: rest) fs).2.1 =
      (copyLoop env root rest (copyOne env root fs f).1).2.1 + 1 := by
  have hget := get_sql_changes_none env f hdiff
  have hmain : (copyOne env root fs f).1.files = fs.files ∧
      (copyOne env root fs f).2 = false := by
    unfold copyOne
    cases he : fs.pathExists f with
    | false => simp [he]
    | true =>
      by_cases hm : env.mkdirFails (pjoin root (path_to_folder_name f)) = true
      · simp [he, hm]
      · simp [he, hm, hsql, hget, FS.mkdir]
  refine ⟨hmain.1, hmain.2, ?_, ?_⟩ <;> simp [copyLoop, hmain.2]

/-- Witness for claim C4 at the concrete file `db/x.sql`. -/
theorem sql_without_added_lines_skipped_witness :
    (copyOne envC4 ("/u".data) fsC4 ("db/x.sql".data)).1.files = fsC4.files ∧
    (copyOne envC4 ("/u".data) fsC4 ("db/x.sql".data)).2 = false ∧
    (copyLoop envC4 ("/u".data) [("db/x.sql".data)] fsC4).1 =
      (copyLoop envC4 ("/u".data) [] (copyOne envC4 ("/u".data) fsC4 ("db/x.sql".data)).1).1 ∧
    (copyLoop envC4 ("/u".data) [("db/x.sql".data)] fsC4).2.1 =
      (copyLoop envC4 ("/u".data) [] (copyOne envC4 ("/u".data) fsC4 ("db/x.sql".data)).1).2.1 + 1 := by
  apply sql_without_added_lines_skipped
  · decide
  · intro d hd
    have hdd := Option.some.inj (show some (("-old\n ctx".data) : Str) = some d from hd)
    subst hdd
    decide

theorem FS.content_write (fs : FS) (p c q : Str) :
    (fs.write p c).content q = if p = q then some c else fs.content q := by
  unfold FS.write FS.content
  simp only [List.find?_cons]
  by_cases h : p = q
  · simp [h]
  · have hb : (p == q) = false := beq_false_of_ne h
    simp [hb, if_neg h]

theorem FS.content_mkdir (fs : FS) (d q : Str) :
    (fs.mkdir d).content q = fs.content q := rfl

theorem prefix_pjoin (a b : Str) (hb : b.head? ≠ some '/') : a <+: pjoin a b := by
  rw [pjoin_as_append, if_neg hb]
  split_ifs with h
  · exact List.prefix_append a b
  · rw [List.append_assoc]
    exact List.prefix_append a _

theorem folder_name_slash_free (f : Str) : ∀ c ∈ path_to_folder_name f, c ≠ '/' := by
  intro c hc
  unfold path_to_folder_name at hc
  rcases List.mem_map.mp hc with ⟨a, _, rfl⟩
  unfold sepToUnderscore
  split_ifs with h1 h2
  · decide
  · decide
  · exact h1

theorem basename_slash_free (p : Str) : ∀ c ∈ basename p, c ≠ '/' := by
  intro c hc
  unfold basename at hc
  rw [List.mem_reverse] at hc
  have := List.mem_takeWhile_imp hc
  simpa using this

theorem head?_ne_slash (l : Str) (h : ∀ c ∈ l, c ≠ '/') : l.head? ≠ some '/' := by
  cases l with
  | nil => simp
  | cons c cs =>
    intro hc
    exact h c (List.mem_cons_self _ _) (Option.some.inj hc)

theorem root_prefix_dest_folder (root f : Str) :
    root <+: pjoin root (path_to_folder_name f) :=
  prefix_pjoin root _ (head?_ne_slash _ (folder_name_slash_free f))

theorem root_prefix_dest_file (root f : Str) :
    root <+: pjoin (pjoin root (path_to_folder_name f)) (basename f) :=
  (root_prefix_dest_folder root f).trans
    (prefix_pjoin _ _ (head?_ne_slash _ (basename_slash_free f)))

theorem copyOne_fs_cases (env : Env) (root : Str) (fs : FS) (f : Str) :
    (copyOne env root fs f).1 = fs ∨
    (copyOne env root fs f).1 = fs.mkdir (pjoin root (path_to_folder_name f)) ∨
    ∃ x, (copyOne env root fs f).1 =
      (fs.mkdir (pjoin root (path_to_folder_name f))).write
        (pjoin (pjoin root (path_to_folder_name f)) (basename f)) x := by
  unfold copyOne
  cases he : fs.pathExists f with
  | false => left; simp [he]
  | true =>
    by_cases hm : env.mkdirFails (pjoin root (path_to_folder_name f)) = true
    · left; simp [he, hm]
    · by_cases hs : is_sql_file f = true
      · cases hg : get_sql_changes env f with
        | none => right; left; simp [he, hm, hs, hg]
        | some content =>
          unfold save_sql_changes
          by_cases h1 : pyStrip content = []
          · right; left; simp [he, hm, hs, hg, h1]
          · by_cases h2 : env.writeFails
                (pjoin (pjoin root (path_to_folder_name f)) (basename f)) = true
            · right; left; simp [he, hm, hs, hg, h1, h2]
            · right; right
              exact ⟨sqlHeader env f ++ content, by simp [he, hm, hs, hg, h1, h2]⟩
      · cases hc : (fs.mkdir (pjoin root (path_to_folder_name f))).content f with
        | none => right; left; simp [he, hm, hs, hc]
        | some c =>
          by_cases h2 : env.copyFails
              (pjoin (pjoin root (path_to_folder_name f)) (basename f)) = true
          · right; left; simp [he, hm, hs, hc, h2]
          · right; right
            exact ⟨c, by simp [he, hm, hs, hc, h2]⟩

theorem copyOne_frame (env : Env) (root : Str) (fs : FS) (f : Str) :
    (∀ p, ((copyOne env root fs f).1).content p ≠ fs.content p → root <+: p) ∧
    (∀ d ∈ ((copyOne env root fs f).1).dirs, d ∈ fs.dirs ∨ root <+: d) ∧
    (∀ p c, fs.content p = some c →
      (((copyOne env root fs f).1).content p).isSome = true) := by
  rcases copyOne_fs_cases env root fs f with h | h | ⟨x, h⟩
  · rw [h]
    exact ⟨fun p hp => absurd rfl hp, fun d hd => Or.inl hd, fun p c hc => by simp [hc]⟩
  · rw [h]
    refine ⟨fun p hp => absurd (FS.content_mkdir fs _ p) hp, ?_, ?_⟩
    · intro d hd
      rcases List.mem_cons.mp hd with rfl | hd
      · exact Or.inr (root_prefix_dest_folder root f)
      · exact Or.inl hd
    · intro p c hc
      rw [FS.content_mkdir, hc]
      rfl
  · rw [h]
    refine ⟨?_, ?_, ?_⟩
    · intro p hp
      by_cases hpq : pjoin (pjoin root (path_to_folder_name f)) (basename f) = p
      · rw [← hpq]
        exact root_prefix_dest_file root f
      · exfalso
        apply hp
        rw [FS.content_write, if_neg hpq, FS.content_mkdir]
    · intro d hd
      rcases List.mem_cons.mp hd with rfl | hd
      · exact Or.inr (root_prefix_dest_folder root f)
      · exact Or.inl hd
    · intro p c hc
      rw [FS.content_write]
      by_cases hpq : pjoin (pjoin root (path_to_folder_name f)) (basename f) = p
      · simp [hpq]
      · rw [if_neg hpq, FS.content_mkdir, hc]
        rfl

theorem copyLoop_cons_fs (env : Env) (root : Str) (f : Str) (rest : List Str) (fs : FS) :
    (copyLoop env root (f :: rest) fs).2.2 =
      (copyLoop env root rest (copyOne env root fs f).1).2.2 := by
  cases hr : (copyOne env root fs f).2 <;> simp [copyLoop, hr]

theorem copyLoop_frame (env : Env) (root : Str) :
    ∀ files fs,
      (∀ p, ((copyLoop env root files fs).2.2).content p ≠ fs.content p → root <+: p) ∧
      (∀ d ∈ ((copyLoop env root files fs).2.2).dirs, d ∈ fs.dirs ∨ root <+: d) ∧
      (∀ p c, fs.content p = some c →
        (((copyLoop env root files fs).2.2).content p).isSome = true) := by
  intro files
  induction files with
  | nil =>
    intro fs
    exact ⟨fun p hp => absurd rfl hp, fun d hd => Or.inl hd, fun p c hc => by simp [copyLoop, hc]⟩
  | cons f rest ih =>
    intro fs
    have hstep := copyOne_frame env root fs f
    have hrec := ih (copyOne env root fs f).1
    rw [copyLoop_cons_fs]
    refine ⟨?_, ?_, ?_⟩
    · intro p hp
      by_cases hmid : ((copyLoop env root rest (copyOne env root fs f).1).2.2).content p =
          ((copyOne env root fs f).1).content p
      · rw [hmid] at hp
        exact hstep.1 p hp
      · exact hrec.1 p hmid
    · intro d hd
      rcases hrec.2.1 d hd with hd1 | hd1
      · exact hstep.2.1 d hd1
      · exact Or.inr hd1
    · intro p c hc
      have h1 := hstep.2.2 p c hc
      rcases Option.isSome_iff_exists.mp h1 with ⟨c1, hc1⟩
      exact hrec.2.2 p c1 hc1

/-- Claim C8 (amended): every file or directory the assembler creates or
overwrites lies under the package root (its path has the root as a prefix),
and no file is ever deleted; consequently, as long as no path of the change
set itself lies under the package root (true in the program, where sources
are relative repository paths and the root is an absolute path), every
source file's content is unchanged after assembly.  Unrestricted, the
statement fails: a change-set entry that names a path inside the package
root can be overwritten by the assembly of an earlier file. -/
theorem copy_files_frame (env : Env) (root : Str) (files : List Str) (fs : FS) :
    (∀ p, ((copyLoop env root files fs).2.2).content p ≠ fs.content p → root <+: p) ∧
    (∀ d ∈ ((copyLoop env root files fs).2.2).dirs, d ∈ fs.dirs ∨ root <+: d) ∧
    (∀ p c, fs.content p = some c →
      (((copyLoop env root files fs).2.2).content p).isSome = true) ∧
    ((∀ f ∈ files, ¬ root <+: f) →
      ∀ f ∈ files, ((copyLoop env root files fs).2.2).content f = fs.content f) := by
  have h := copyLoop_frame env root files fs
  refine ⟨h.1, h.2.1, h.2.2, ?_⟩
  intro hroots f hf
  by_contra hne
  exact hroots f hf (h.1 f hne)

/-- Witness for the amended claim C8: a run over the single relative path
`a/f` with root `/u` leaves the source file `a/f` untouched. -/
theorem copy_files_frame_witness :
    (copyLoop env0 ("/u".data) [("a/f".data)] fsW).2.2.content ("a/f".data) =
      fsW.content ("a/f".data) := by
  have h := (copy_files_frame env0 ("/u".data) [("a/f".data)] fsW).2.2.2
  exact h (by decide) ("a/f".data) (by decide)

/-- Counterexample to claim C8 as stated: with package root `/u` and change
set `[a_b/g, /u/a_b/g]`, copying `a_b/g` writes to `/u/a_b/g`, which is
itself a member of the change set, so that source file's content changes
from `old` to `new` during assembly. -/
theorem claimEight_cex :
    (("/u/a_b/g".data) ∈ [("a_b/g".data), ("/u/a_b/g".data)]) ∧
    (copyLoop env0 ("/u".data) [("a_b/g".data), ("/u/a_b/g".data)] fsC8).2.2.content
        ("/u/a_b/g".data) ≠ fsC8.content ("/u/a_b/g".data) := by decide

/-- Claim C5 (code bug, evaluated): a `CalledProcessError` of the
collaborator (not a repository, invalid commit identifiers) is turned into
a warning and an empty list, but the tool-unavailable case
(`FileNotFoundError`) is not caught by `get_files_between_commits`, so the
exception escapes and aborts the process — contrary to the claimed
"same empty/failure-is-a-warning contract". -/
theorem get_files_between_commits_behaviour :
    get_files_between_commits GitOutcome.callFailed = Except.ok [] ∧
    get_files_between_commits GitOutcome.toolMissing = Except.error () ∧
    get_files_between_commits (GitOutcome.ok ("a.py\nb.sql\n".data)) =
      Except.ok [("a.py".data), ("b.sql".data)] :=
  ⟨rfl, rfl, rfl⟩

/-- Claim C6 (code bug, evaluated): a missing or unreadable configuration
file falls back to the default root, and a malformed line that does not
name `update_path` is ignored; but a line that names `update_path` with no
`=` separator raises an uncaught `IndexError` instead of being ignored. -/
theorem resolveUpdateRoot_behaviour :
    resolveUpdateRoot ("/cwd".data) ("updates".data) none =
      Except.ok ("/cwd/updates".data) ∧
    resolveUpdateRoot ("/cwd".data) ("updates".data) (some none) =
      Except.ok ("/cwd/updates".data) ∧
    resolveUpdateRoot ("/cwd".data) ("updates".data)
      (some (some [("foo=bar".data), ("garbage".data)])) =
      Except.ok ("/cwd/updates".data) ∧
    resolveUpdateRoot ("/cwd".data) ("updates".data)
      (some (some [("update_path = '/srv/u'".data)])) =
      Except.ok ("/srv/u".data) ∧
    resolveUpdateRoot ("/cwd".data) ("updates".data)
      (some (some [("update_path".data)])) = Except.error () :=
  ⟨rfl, rfl, rfl, rfl, rfl⟩

/-- Claim C7: zero exit code when the resolver returns no files; failure
exit code when the package folder cannot be created or when files were
found but none could be processed; success (zero) exit code when at least
one file is processed. -/
theorem main_exit_codes (env : Env) (files : List Str) (root : Str) (fs : FS)
    (mk : Bool) :
    (files = [] → mainExitCode env files root fs mk = 0) ∧
    (files ≠ [] → mk = true → mainExitCode env files root fs mk = 1) ∧
    (files ≠ [] → mk = false → 0 < (copy_files_to_update env files root fs).1 →
      mainExitCode env files root fs mk = 0) ∧
    (files ≠ [] → mk = false → (copy_files_to_update env files root fs).1 = 0 →
      mainExitCode env files root fs mk = 1) := by
  refine ⟨?_, ?_, ?_, ?_⟩
  · intro h
    simp [mainExitCode, h]
  · intro h hmk
    simp [mainExitCode, h, hmk]
  · intro h hmk hs
    simp [mainExitCode, h, hmk, hs]
  · intro h hmk hs
    simp [mainExitCode, h, hmk, hs]

/-- Witness for claim C7 at concrete runs exercising all four exit paths. -/
theorem main_exit_codes_witness :
    mainExitCode env0 [] ("u".data) { files := [], dirs := [] } false = 0 ∧
    mainExitCode env0 [("x".data)] ("u".data) { files := [], dirs := [] } true = 1 ∧
    mainExitCode env0 [("a/f".data)] ("u".data) fsW false = 0 ∧
    mainExitCode env0 [("x".data)] ("u".data) { files := [], dirs := [] } false = 1 := by
  refine ⟨?_, ?_, ?_, ?_⟩
  · exact (main_exit_codes env0 [] ("u".data) { files := [], dirs := [] } false).1 rfl
  · exact (main_exit_codes env0 [("x".data)] ("u".data)
      { files := [], dirs := [] } true).2.1 (by decide) rfl
  · exact (main_exit_codes env0 [("a/f".data)] ("u".data) fsW false).2.2.1
      (by decide) rfl (by decide)
  · exact (main_exit_codes env0 [("x".data)] ("u".data)
      { files := [], dirs := [] } false).2.2.2 (by decide) rfl (by decide)
